import Mathlib

/-!
Verification development for the MIME email normalization pipeline of
`src/lambda/parser/lambda_function.py` (repository `email_to_webhook`).

Strings are modelled as `List Char`, byte payloads as `List Nat`.  The
Python standard-library pieces the source calls are modelled as follows:

* `bytes.decode(charset, errors="replace")` — the codec registry is a
  parameter `codecs : List Char → Option (Nat → Option Char)`; a known
  codec is a total byte table whose unknown bytes decode to U+FFFD
  (`decodeReplace`), an unknown charset name yields `none`
  (Python `LookupError`, caught by the walker).
* `str.strip()` / `str.strip(chars)` — `pyStrip` / `pyStripChars`.
* `str.split(sep)` — `pySplit` (single-character separator, as used by
  the source).
* `str.replace(old, new)` — `replaceList` (leftmost, non-overlapping).
* `max(candidates, key=len)` — `pyMaxByLen` (first maximal element wins,
  exactly Python's tie-breaking).
* `uuid.uuid4().hex` — a fresh-token supply `tokens : Nat → List Char`
  consumed left to right through a counter, so that one run of the
  handler corresponds to one supply.
* `s3_client.put_object` — an oracle `putOk : key → data → contentType →
  Bool`; `False` models the call raising (caught by the handler).
-/

/-- Lower-case a modelled Python string (ASCII case folding of `str.lower`). -/
def lowerStr (s : List Char) : List Char := s.map Char.toLower

/-- Python `needle in haystack` substring test. -/
def occursB (p : List Char) : List Char → Bool
  | [] => p.isEmpty
  | a :: t => p.isPrefixOf (a :: t) || occursB p t

/-- Python `str.strip()`: drop whitespace from both ends. -/
def pyStrip (s : List Char) : List Char :=
  ((s.dropWhile Char.isWhitespace).reverse.dropWhile Char.isWhitespace).reverse

/-- Python `str.strip(chars)`: drop any of the given characters from both ends. -/
def pyStripChars (cs : List Char) (s : List Char) : List Char :=
  ((s.dropWhile (cs.contains ·)).reverse.dropWhile (cs.contains ·)).reverse

/-- Python `str.split(sep)` for a single-character separator: the list of
fields between occurrences of `c`; always non-empty. -/
def pySplit (c : Char) : List Char → List (List Char)
  | [] => [[]]
  | a :: t =>
    let r := pySplit c t
    if a = c then [] :: r
    else
      match r with
      | [] => [[a]]
      | s :: rest => (a :: s) :: rest

/-- Python `str.split(sep, 1)` at the first occurrence of `c` (used only when
`c` occurs): the part before the first `c` and the part after it. -/
def splitOnceAt (c : Char) (s : List Char) : List Char × List Char :=
  (s.takeWhile (· ≠ c), (s.dropWhile (· ≠ c)).drop 1)

/-- Scanner for Python `str.replace(old, new)`: at each position, when the
pattern is a prefix, emit the replacement and skip past the match, else copy
one character.  The fuel argument only bounds the recursion; with fuel at
least the string length (as `replaceList` supplies) it is never exhausted. -/
def replaceGo (p r : List Char) : Nat → List Char → List Char
  | _, [] => []
  | 0, s => s
  | fuel + 1, a :: t =>
    if p ≠ [] ∧ p.isPrefixOf (a :: t) then
      r ++ replaceGo p r fuel (List.drop p.length (a :: t))
    else
      a :: replaceGo p r fuel t

/-- Python `str.replace(old, new)`: replace every leftmost non-overlapping
occurrence of `p` by `r`, scanning left to right.  (The source never calls
it with an empty pattern; an empty `p` here replaces nothing.) -/
def replaceList (p r : List Char) (s : List Char) : List Char :=
  replaceGo p r s.length s

/-- Python `max(xs, key=len)`: the first element of maximal length, `none` on
an empty list (where Python would raise; the source guards non-emptiness). -/
def pyMaxByLen : List (List Char) → Option (List Char)
  | [] => none
  | a :: t => some (t.foldl (fun best x => if best.length < x.length then x else best) a)

/-- The U+FFFD replacement character produced by `errors="replace"`. -/
def replacementChar : Char := Char.ofNat 0xFFFD

/-- Model of `payload.decode(charset, errors="replace")` for a known codec:
each byte decodes through the codec's table, invalid bytes become U+FFFD. -/
def decodeReplace (tbl : Nat → Option Char) (bs : List Nat) : List Char :=
  bs.map fun b => (tbl b).getD replacementChar

/-- A single-byte codec table accepting exactly the ASCII range, used as the
concrete registry entry for `utf-8` when evaluating concrete scenarios
(all concrete payloads in this file are ASCII). -/
def asciiTable (b : Nat) : Option Char :=
  if b < 128 then some (Char.ofNat b) else none

/-- A concrete codec registry knowing only `utf-8`. -/
def stdCodecs (name : List Char) : Option (Nat → Option Char) :=
  if name = "utf-8".data then some asciiTable else none

/-- Render an ASCII string as the byte payload that decodes back to it. -/
def asciiBytes (s : List Char) : List Nat := s.map Char.toNat

/-! ## The MIME part model

`MimePart` mirrors the view the source takes of `email.message.EmailMessage`:
a part is either a leaf carrying decoded payload bytes (`get_payload(decode=True)`)
or a multipart node with ordered children (`iter_parts()`).  Headers carry the
fields the source reads: `get_content_type()` (already lower-cased by the
library), `get_content_disposition()`, `get("Content-ID")`, `get_filename()`,
`get_content_charset()`. -/

structure PartHeaders where
  contentType : List Char
  disposition : Option (List Char)
  contentId : Option (List Char)
  filename : Option (List Char)
  charset : Option (List Char)
deriving DecidableEq

inductive MimePart where
  | leaf (headers : PartHeaders) (payload : List Nat)
  | multi (headers : PartHeaders) (children : List MimePart)

/-- Headers of a part. -/
def headersOf : MimePart → PartHeaders
  | .leaf h _ => h
  | .multi h _ => h

/-- Model of `part.get_payload(decode=True)` as used by the attachment loop:
leaf bytes, and the empty payload for a multipart part (Python returns `None`
there, which the source treats as falsy). -/
def payloadBytes : MimePart → List Nat
  | .leaf _ p => p
  | .multi _ _ => []

/-- Effective charset: `part.get_content_charset() or "utf-8"`
(absent or empty falls back to utf-8). -/
def effCharset (h : PartHeaders) : List Char :=
  match h.charset with
  | some c => if c.isEmpty then "utf-8".data else c
  | none => "utf-8".data

/-- The source's attachment-skip test in the body walker:
`"attachment" in str(part.get_content_disposition() or "").lower()`. -/
def isAttachmentDisp (h : PartHeaders) : Bool :=
  occursB "attachment".data (lowerStr (h.disposition.getD []))

/-- Structural well-founded recursion principle for `MimePart`. -/
def MimePart.recStrong {P : MimePart → Prop}
    (hleaf : ∀ h p, P (.leaf h p))
    (hmulti : ∀ h cs, (∀ c ∈ cs, P c) → P (.multi h cs)) :
    ∀ m, P m
  | .leaf h p => hleaf h p
  | .multi h cs => hmulti h cs (fun c hc =>
      MimePart.recStrong hleaf hmulti c)
termination_by m => sizeOf m
decreasing_by
  have := List.sizeOf_lt_of_mem hc
  simp only [MimePart.multi.sizeOf_spec]
  omega

/-! ## The body walker (`extract_email_body`, lines 96-153)

`walk` returns the pair `(plain_candidates, html_candidates)` accumulated in
depth-first traversal order, exactly as the nested Python `walk` appends to
the two candidate lists. -/

mutual

/-- The recursive `walk` of `extract_email_body`: multipart parts recurse into
every child in order; a leaf with an attachment disposition, an empty payload
or an unknown charset (the caught `LookupError`) contributes nothing;
otherwise the decoded, stripped text joins the plain or html candidate list
according to the content type. -/
def walk (codecs : List Char → Option (Nat → Option Char)) :
    MimePart → List (List Char) × List (List Char)
  | .leaf h payload =>
    if isAttachmentDisp h then ([], [])
    else if payload.isEmpty then ([], [])
    else
      match codecs (effCharset h) with
      | none => ([], [])
      | some tbl =>
        let text := pyStrip (decodeReplace tbl payload)
        if h.contentType = "text/plain".data then ([text], [])
        else if h.contentType = "text/html".data then ([], [text])
        else ([], [])
  | .multi _ children => walkList codecs children

/-- Traversal of a child list in declaration order, appending each child's
candidates to the lists accumulated from its left siblings. -/
def walkList (codecs : List Char → Option (Nat → Option Char)) :
    List MimePart → List (List Char) × List (List Char)
  | [] => ([], [])
  | p :: ps =>
    let a := walk codecs p
    let b := walkList codecs ps
    (a.1 ++ b.1, a.2 ++ b.2)

end

/-- `extract_email_body` (lines 139-153): pick the longest plain and html
candidates (`max(..., key=len)`), fall back to the html winner when the plain
body is falsy and the html winner is truthy, and return `(body, html_body)`. -/
def extract_email_body (codecs : List Char → Option (Nat → Option Char))
    (msg : MimePart) : List Char × Option (List Char) :=
  let cands := walk codecs msg
  let body0 := (pyMaxByLen cands.1).getD []
  let htmlBody := pyMaxByLen cands.2
  let body :=
    match htmlBody with
    | some hb => if body0.isEmpty && !hb.isEmpty then hb else body0
    | none => body0
  (body, htmlBody)

/-! ## The attachment loop (`lambda_handler`, lines 336-394)

The loop runs only when the root message is multipart and iterates the
*direct* children (`msg.iter_parts()` is not recursive).  For each processed
part it synthesizes a name and a storage key (drawing fresh uuid tokens),
attempts the S3 put, and on success appends an attachment record; a raising
put is caught and the record skipped. -/

structure AttachmentRecord where
  filename : List Char
  public_url : List Char
  content_type : List Char
  inline : Bool
  content_id : Option (List Char)
deriving DecidableEq

/-- One prepared `put_object` call: its key, body bytes, content type and
the record appended if the call succeeds. -/
structure PutAttempt where
  key : List Char
  data : List Nat
  content_type : List Char
  record : AttachmentRecord
deriving DecidableEq

/-- `content_type in ("text/plain", "text/html")`. -/
def isTextType (ct : List Char) : Bool :=
  ct = "text/plain".data || ct = "text/html".data

/-- `is_inline_image` (line 343): the part carries a `Content-ID` header and
its content type is not a body text type. -/
def isInlineImage (h : PartHeaders) : Bool :=
  h.contentId.isSome && !(isTextType h.contentType)

/-- Whether a direct child enters attachment processing (lines 348-352): not
skipped by the body-text `continue`, and flagged as attachment, inline image,
or filename-bearing. -/
def qualifiesForAttachment (h : PartHeaders) : Bool :=
  (!(isTextType h.contentType) || isAttachmentDisp h) &&
  (isAttachmentDisp h || isInlineImage h || h.filename.isSome)

/-- Filename extension drawn from the content type:
`content_type.split('/')[-1] if '/' in content_type else 'bin'`. -/
def extOfContentType (ct : List Char) : List Char :=
  if ct.contains '/' then (pySplit '/' ct).getLastD [] else "bin".data

/-- Lines 352-386 for one direct child, put call excluded: either the part is
skipped (no attempt) or one `PutAttempt` is prepared.  The second component is
the token counter after the part: name synthesis draws a token when the code
calls `uuid4().hex` (inline image with falsy name and empty content id, or
falsy name on a non-inline part), and the storage key always draws one. -/
def attAttempt (tokens : Nat → List Char) (bucket : List Char)
    (p : MimePart) (n : Nat) : Option PutAttempt × Nat :=
  let h := headersOf p
  if qualifiesForAttachment h then
    let data := payloadBytes p
    if data.isEmpty then (none, n)
    else
      let contentId := pyStripChars ['<', '>'] (h.contentId.getD [])
      let name0 := h.filename.getD []
      let step1 : List Char × Nat :=
        if isInlineImage h && name0.isEmpty then
          if contentId.isEmpty then
            ("inline_".data ++ tokens n ++ ".".data ++ extOfContentType h.contentType, n + 1)
          else
            ("inline_".data ++ contentId ++ ".".data ++ extOfContentType h.contentType, n)
        else (name0, n)
      let step2 : List Char × Nat :=
        if step1.1.isEmpty then ("attachment_".data ++ tokens step1.2 ++ ".bin".data, step1.2 + 1)
        else step1
      let key := tokens step2.2 ++ "/".data ++ step2.1
      let url := "https://".data ++ bucket ++ ".s3.amazonaws.com/".data ++ key
      (some { key := key, data := data, content_type := h.contentType,
              record := { filename := step2.1, public_url := url,
                          content_type := h.contentType,
                          inline := isInlineImage h,
                          content_id := if isInlineImage h then some contentId else none } },
       step2.2 + 1)
  else (none, n)

/-- The attachment loop over the direct children: each prepared attempt whose
put succeeds contributes its record, a raising put (`putOk = false`) is caught
and skipped, and processing continues with the next part. -/
def processAtts (putOk : List Char → List Nat → List Char → Bool)
    (tokens : Nat → List Char) (bucket : List Char) :
    List MimePart → Nat → List AttachmentRecord
  | [], _ => []
  | p :: ps, n =>
    match attAttempt tokens bucket p n with
    | (some a, n') =>
      (if putOk a.key a.data a.content_type then [a.record] else []) ++
        processAtts putOk tokens bucket ps n'
    | (none, n') => processAtts putOk tokens bucket ps n'

/-- The put attempts the loop prepares, independent of the put oracle. -/
def attemptsList (tokens : Nat → List Char) (bucket : List Char) :
    List MimePart → Nat → List PutAttempt
  | [], _ => []
  | p :: ps, n =>
    match attAttempt tokens bucket p n with
    | (some a, n') => a :: attemptsList tokens bucket ps n'
    | (none, n') => attemptsList tokens bucket ps n'

/-- Whether a record triggers a cid-rewriting pass (line 393):
`attachment.get("inline") and attachment.get("content_id")`. -/
def cidActive (r : AttachmentRecord) : Bool :=
  r.inline && (match r.content_id with | some c => !c.isEmpty | none => false)

/-- Lines 390-394: one sequential `str.replace` pass per attachment record,
in list order, replacing `cid:{content_id}` by the record's public url for
inline records with a truthy content id. -/
def rewriteCids (atts : List AttachmentRecord) (html : List Char) : List Char :=
  atts.foldl
    (fun acc r =>
      if cidActive r then
        replaceList ("cid:".data ++ (r.content_id.getD [])) r.public_url acc
      else acc)
    html

/-- The normalization result relevant to the claims: `body`, `html_body`, and
the attachment records, as assembled into `parsed_email` (lines 424-443). -/
structure NormResult where
  body : List Char
  html_body : Option (List Char)
  attachments : List AttachmentRecord
deriving DecidableEq

/-- The body-and-attachments portion of `lambda_handler` (lines 328-399):
extract the body, then — only for a multipart root — run the attachment loop
over the direct children and rewrite cid references in a truthy html body. -/
def normalizeEmail (codecs : List Char → Option (Nat → Option Char))
    (putOk : List Char → List Nat → List Char → Bool)
    (tokens : Nat → List Char) (bucket : List Char) (msg : MimePart) : NormResult :=
  let eb := extract_email_body codecs msg
  match msg with
  | .multi _ children =>
    let atts := processAtts putOk tokens bucket children 0
    { body := eb.1,
      html_body :=
        match eb.2 with
        | some hb => if hb.isEmpty then some hb else some (rewriteCids atts hb)
        | none => none,
      attachments := atts }
  | .leaf _ _ => { body := eb.1, html_body := eb.2, attachments := [] }

/-! ## Routing key derivation (lines 236-241 and 404-422)

The regex search on the `Received` header
(`by ([\w\.-]+) with SMTP id ([\w\d]+).*?for ([\w@\.-]+);`) and
`email.utils.getaddresses([recipient])` are standard-library calls; they are
modelled by their results: `receivedFor` is the matched `group(3)` when the
pattern matched (note the `[\w@\.-]+` address class does not require an `'@'`,
e.g. `Received: by mx.example.com with SMTP id ab1 for example.com;` matches
with `group(3) = "example.com"`), and `toAddresses` is the parsed
`(realname, address)` list of the `To` header. -/

structure RoutingHeaders where
  receivedFor : Option (List Char)
  recipient : List Char
  toAddresses : List (List Char × List Char)

/-- Line 239: `kv_key = match.group(3).split('@')[1] if match else
(recipient.split('@')[-1].strip('>') if recipient else '')`.
Indexing `[1]` raises `IndexError` when the matched address has no `'@'`;
this is modelled by `Except.error`. -/
def kvKeyE (m : RoutingHeaders) : Except Unit (List Char) :=
  match m.receivedFor with
  | some a =>
    match (pySplit '@' a).get? 1 with
    | some d => .ok d
    | none => .error ()
  | none =>
    if m.recipient.isEmpty then .ok []
    else .ok (pyStripChars ['>'] ((pySplit '@' m.recipient).getLastD []))

/-- Lines 410-418: fall back to the first `To` address; when it carries no
`'@'`, degrade to `(kv_key or '', '')`.  `addresses` is guarded by
`if recipient else []` as in line 411.  Returns `(domain_part, local_part)`. -/
def domainLocalFallback (m : RoutingHeaders) (kvk : List Char) :
    List Char × List Char :=
  let addresses := if m.recipient.isEmpty then [] else m.toAddresses
  let emailAddr := match addresses.get? 0 with | some pr => pr.2 | none => []
  if !emailAddr.isEmpty && emailAddr.contains '@' then
    let p := splitOnceAt '@' emailAddr
    (p.2, p.1)
  else ((if kvk.isEmpty then [] else kvk), [])

/-- Lines 406-418: the matched `for` address is authoritative when truthy and
containing `'@'` (`received_from.split('@', 1)`); otherwise the fallback runs.
Returns `(domain_part, local_part)`. -/
def domainLocalParts (m : RoutingHeaders) (kvk : List Char) :
    List Char × List Char :=
  match m.receivedFor with
  | some a =>
    if !a.isEmpty && a.contains '@' then
      let p := splitOnceAt '@' a
      (p.2, p.1)
    else domainLocalFallback m kvk
  | none => domainLocalFallback m kvk

/-- The full routing derivation of the handler: compute `kv_key` (line 239,
outside any try/except — an `IndexError` there propagates), then
`(domain_part, local_part)` (lines 404-422, whose own try/except is modelled
by the total `domainLocalParts`).  Returns `(kv_key, domain_part, local_part)`. -/
def deriveRouting (m : RoutingHeaders) :
    Except Unit (List Char × List Char × List Char) :=
  match kvKeyE m with
  | .error e => .error e
  | .ok kvk => .ok (kvk, domainLocalParts m kvk)

/-! ## Characterization helpers used by the claim statements -/

mutual

/-- A leaf that contributes an html candidate to the walker: content type
`text/html`, disposition not containing `attachment`, non-empty payload and a
charset known to the codec registry; a multipart node contributes iff some
child does. -/
def contribHtml (codecs : List Char → Option (Nat → Option Char)) :
    MimePart → Bool
  | .leaf h payload =>
    !(isAttachmentDisp h) && !payload.isEmpty &&
      (codecs (effCharset h)).isSome && h.contentType = "text/html".data
  | .multi _ children => contribHtmlList codecs children

/-- Some child of the list contributes an html candidate. -/
def contribHtmlList (codecs : List Char → Option (Nat → Option Char)) :
    List MimePart → Bool
  | [] => false
  | p :: ps => contribHtml codecs p || contribHtmlList codecs ps

end

mutual

/-- Following the words of claim C4: some leaf anywhere in the tree has
content type `text/html` (regardless of disposition, payload or charset). -/
def specHasHtmlLeaf : MimePart → Bool
  | .leaf h _ => h.contentType = "text/html".data
  | .multi _ children => specHasHtmlLeafList children

/-- Some part of the list has a `text/html` leaf. -/
def specHasHtmlLeafList : List MimePart → Bool
  | [] => false
  | p :: ps => specHasHtmlLeaf p || specHasHtmlLeafList ps

end

/-- The token-free view of an attachment record: every field except the
storage-key-bearing `public_url`. -/
def intentOf (r : AttachmentRecord) : List Char × List Char × Bool × Option (List Char) :=
  (r.filename, r.content_type, r.inline, r.content_id)

/-- A direct child whose processing never feeds a fresh uuid token into the
record fields other than `public_url`: it is skipped, or has an empty payload,
or carries a truthy filename, or is an inline image with a truthy content id. -/
def tokenFreeName (p : MimePart) : Bool :=
  let h := headersOf p
  !(qualifiesForAttachment h) || (payloadBytes p).isEmpty ||
    !(h.filename.getD []).isEmpty ||
    (isInlineImage h && !(pyStripChars ['<', '>'] (h.contentId.getD [])).isEmpty)

/-! ## Concrete example messages and oracles used in witnesses and
counterexamples -/

/-- Header constructor shortcut. -/
def phdr (ct : String) (disp cid fn cset : Option String) : PartHeaders :=
  ⟨ct.data, disp.map String.data, cid.map String.data, fn.map String.data,
   cset.map String.data⟩

/-- A put oracle that always succeeds. -/
def putAllOk : List Char → List Nat → List Char → Bool := fun _ _ _ => true

/-- Constant token supplies standing for distinct uuid draws. -/
def tokT : Nat → List Char := fun _ => "t".data

def tokA : Nat → List Char := fun _ => "a".data

def tokB : Nat → List Char := fun _ => "z".data

/-- A single-part `text/plain` message with body `Hello`. -/
def helloLeaf : MimePart :=
  .leaf (phdr "text/plain" none none none none) (asciiBytes "Hello".data)

/-- A `text/html` leaf with body `Hi`. -/
def hiHtmlLeaf : MimePart :=
  .leaf (phdr "text/html" none none none none) (asciiBytes "Hi".data)

/-- An html leaf carrying a dangling-looking token `cid:imgX`. -/
def cidHtmlLeaf : MimePart :=
  .leaf (phdr "text/html" none none none none) (asciiBytes "<p>cid:imgX</p>".data)

/-- An inline png whose stripped content id `img` is a proper prefix of the
`imgX` token above. -/
def cidPngLeaf : MimePart :=
  .leaf (phdr "image/png" none (some "<img>") (some "a.png") none) [1, 2]

/-- The message of the C2 counterexample. -/
def cidMsg : MimePart :=
  .multi (phdr "multipart/related" none none none none) [cidHtmlLeaf, cidPngLeaf]

/-- A `text/html` leaf explicitly marked as an attachment. -/
def attachedHtmlLeaf : MimePart :=
  .leaf (phdr "text/html" (some "attachment") none none none) (asciiBytes "x".data)

/-- A pdf attachment leaf with a filename. -/
def pdfLeaf : MimePart :=
  .leaf (phdr "application/pdf" (some "attachment") none (some "f.pdf") none) [1]

/-- A second attachment: an inline png with filename `p.png` and content id `i1`. -/
def pngInlineLeaf : MimePart :=
  .leaf (phdr "image/png" none (some "<i1>") (some "p.png") none) [2]

/-- An html leaf referencing the inline png by `cid:i1`. -/
def refHtmlLeaf : MimePart :=
  .leaf (phdr "text/html" none none none none) (asciiBytes "x cid:i1 y".data)

/-- Two-attachment message for the C6 scenario. -/
def twoAttMsg : MimePart :=
  .multi (phdr "multipart/mixed" none none none none) [refHtmlLeaf, pdfLeaf, pngInlineLeaf]

/-- A put oracle failing exactly on the key the inline png receives under
supply `tokT`. -/
def putFailPng : List Char → List Nat → List Char → Bool :=
  fun k _ _ => !(k = "t/p.png".data)

/-- A nested message hiding an attachment leaf inside an inner multipart
child. -/
def nestedAttMsg : MimePart :=
  .multi (phdr "multipart/mixed" none none none none)
    [.multi (phdr "multipart/mixed" none none none none) [pdfLeaf]]

/-- An attachment-qualifying leaf with no filename and no content id: its
synthesized name draws a fresh token. -/
def noNameLeaf : MimePart :=
  .leaf (phdr "application/pdf" (some "attachment") none none none) [1]

/-- A `text/plain` leaf whose payload starts with a byte that is invalid for
the declared charset. -/
def invalidByteLeaf : MimePart :=
  .leaf (phdr "text/plain" none none none (some "utf-8")) [200, 72]

/-- Routing headers whose `Received` for-clause matched an address without
an `'@'` (e.g. `Received: by mx.example.com with SMTP id ab1 for
example.com;`). -/
def routingNoAt : RoutingHeaders :=
  ⟨some "example.com".data, "a@b.com".data, [([], "a@b.com".data)]⟩

/-- Routing headers with no `Received` match and a `To` header that parses to
an address without an `'@'`. -/
def routingBadTo : RoutingHeaders :=
  ⟨none, "foo".data, [([], "foo".data)]⟩

/-- Routing headers with a well-formed `Received` for-clause. -/
def routingGood : RoutingHeaders :=
  ⟨some "alice@mail.example.com".data, "alice@mail.example.com".data,
   [([], "alice@mail.example.com".data)]⟩

/-- The two-attachment message used by the C6 witness (inline png first,
pdf second). -/
def twoAttOnlyMsg : MimePart :=
  .multi (phdr "multipart/mixed" none none none none) [pngInlineLeaf, pdfLeaf]

/-- A put oracle failing exactly on the pdf's key under supply `tokT`. -/
def putFailPdf : List Char → List Nat → List Char → Bool :=
  fun k _ _ => !(k = "t/f.pdf".data)

/-- The first put attempt prepared for `twoAttOnlyMsg` under `tokT`. -/
def c6A1 : PutAttempt :=
  { key := "t/p.png".data, data := [2], content_type := "image/png".data,
    record := { filename := "p.png".data,
                public_url := "https://b.s3.amazonaws.com/t/p.png".data,
                content_type := "image/png".data, inline := true,
                content_id := some "i1".data } }

/-- The second put attempt prepared for `twoAttOnlyMsg` under `tokT`. -/
def c6A2 : PutAttempt :=
  { key := "t/f.pdf".data, data := [1], content_type := "application/pdf".data,
    record := { filename := "f.pdf".data,
                public_url := "https://b.s3.amazonaws.com/t/f.pdf".data,
                content_type := "application/pdf".data, inline := false,
                content_id := none } }

/-- Routing headers with no `Received` match and a non-empty `To` header
consisting of a single `'>'`, whose `kv_key` fallback strips to the empty
string. -/
def routingGtTo : RoutingHeaders :=
  ⟨none, ">".data, []⟩

/-! ## Helper lemmas -/

theorem occursB_nil (p : List Char) : occursB p [] = p.isEmpty := rfl

theorem occursB_cons (p : List Char) (a : Char) (t : List Char) :
    occursB p (a :: t) = (p.isPrefixOf (a :: t) || occursB p t) := rfl

/-- A prefix occurs as a substring. -/
theorem occursB_of_isPrefixOf {p s : List Char} (h : p.isPrefixOf s = true) :
    occursB p s = true := by
  cases s with
  | nil =>
    cases p with
    | nil => rfl
    | cons a t => simp [List.isPrefixOf] at h
  | cons a t => simp [occursB_cons, h]

theorem isPrefixOf_append_self (r x : List Char) : r.isPrefixOf (r ++ x) = true := by
  induction r with
  | nil => simp [List.isPrefixOf]
  | cons a t ih => simp [List.isPrefixOf, ih]

/-- If the pattern does not occur, the replacement scanner is the identity at
any fuel. -/
theorem replaceGo_of_not_occurs {p r : List Char} :
    ∀ (fuel : Nat) (s : List Char), occursB p s = false →
      replaceGo p r fuel s = s := by
  intro fuel
  induction fuel with
  | zero => intro s h; cases s <;> rfl
  | succ fuel ih =>
    intro s h
    cases s with
    | nil => rfl
    | cons a t =>
      rw [occursB_cons, Bool.or_eq_false_iff] at h
      rw [replaceGo, if_neg (by simp [h.1]), ih t h.2]

/-- If the pattern does not occur, `replaceList` is the identity. -/
theorem replaceList_of_not_occurs {p r s : List Char}
    (h : occursB p s = false) : replaceList p r s = s :=
  replaceGo_of_not_occurs s.length s h

/-- If the pattern occurs and the fuel covers the string, the replacement
string occurs in the scanner's output. -/
theorem replaceGo_replacement {p r : List Char} (hp : p ≠ []) :
    ∀ (fuel : Nat) (s : List Char), s.length ≤ fuel → occursB p s = true →
      occursB r (replaceGo p r fuel s) = true := by
  intro fuel
  induction fuel with
  | zero =>
    intro s hlen h
    have hs : s = [] := List.length_eq_zero.mp (Nat.le_zero.mp hlen)
    subst hs
    rw [occursB_nil, List.isEmpty_iff] at h
    exact absurd h hp
  | succ fuel ih =>
    intro s hlen h
    cases s with
    | nil =>
      rw [occursB_nil, List.isEmpty_iff] at h
      exact absurd h hp
    | cons a t =>
      by_cases hpre : p.isPrefixOf (a :: t)
      · rw [replaceGo, if_pos ⟨hp, hpre⟩]
        exact occursB_of_isPrefixOf (isPrefixOf_append_self r _)
      · rw [replaceGo, if_neg (by simp [hpre])]
        rw [occursB_cons] at h
        have hnp : p.isPrefixOf (a :: t) = false := by
          rw [Bool.eq_false_iff]
          intro hx
          exact hpre hx
        rw [hnp, Bool.false_or] at h
        have hlt : t.length ≤ fuel := by
          simp only [List.length_cons] at hlen
          omega
        have := ih t hlt h
        rw [occursB_cons, this]
        simp

/-- If the pattern occurs, the replacement string occurs in the output. -/
theorem occursB_replacement {p r s : List Char} (hp : p ≠ [])
    (h : occursB p s = true) : occursB r (replaceList p r s) = true :=
  replaceGo_replacement hp s.length s (Nat.le_refl _) h

/-- The first-maximal-element specification of Python's
`max(candidates, key=len)` fold. -/
theorem pyFold_spec (t : List (List Char)) : ∀ a : List Char,
    (∀ c ∈ a :: t,
        c.length ≤ (t.foldl (fun best x => if best.length < x.length then x else best) a).length) ∧
    ∃ pre post, a :: t =
        pre ++ (t.foldl (fun best x => if best.length < x.length then x else best) a) :: post ∧
      ∀ c ∈ pre,
        c.length < (t.foldl (fun best x => if best.length < x.length then x else best) a).length := by
  induction t with
  | nil =>
    intro a
    refine ⟨?_, [], [], rfl, ?_⟩ <;> simp
  | cons x t ih =>
    intro a
    simp only [List.foldl_cons]
    by_cases hx : a.length < x.length
    · rw [if_pos hx]
      obtain ⟨hle, pre, post, hdec, hpre⟩ := ih x
      have hxr : x.length ≤ (t.foldl (fun best x => if best.length < x.length then x else best) x).length :=
        hle x (by simp)
      refine ⟨?_, a :: pre, post, by simp [hdec], ?_⟩
      · intro c hc
        rcases List.mem_cons.mp hc with hc | hc
        · subst hc; exact le_of_lt (lt_of_lt_of_le hx hxr)
        · exact hle c hc
      · intro c hc
        rcases List.mem_cons.mp hc with hc | hc
        · subst hc; exact lt_of_lt_of_le hx hxr
        · exact hpre c hc
    · rw [if_neg hx]
      obtain ⟨hle, pre, post, hdec, hpre⟩ := ih a
      have har : a.length ≤ (t.foldl (fun best x => if best.length < x.length then x else best) a).length :=
        hle a (by simp)
      have hxa : x.length ≤ a.length := Nat.le_of_not_lt hx
      refine ⟨?_, ?_⟩
      · intro c hc
        rcases List.mem_cons.mp hc with hc | hc
        · subst hc; exact har
        rcases List.mem_cons.mp hc with hc | hc
        · subst hc; exact le_trans hxa har
        · exact hle c (by simp [hc])
      · cases pre with
        | nil =>
          simp only [List.nil_append] at hdec
          obtain ⟨hf, hpost⟩ := (List.cons.injEq _ _ _ _).mp hdec
          refine ⟨[], x :: t, ?_, by simp⟩
          rw [List.nil_append, ← hf]
        | cons b pre₂ =>
          have hb : b = a := ((List.cons.injEq _ _ _ _).mp hdec).1.symm
          have ht : t = pre₂ ++ (t.foldl (fun best x => if best.length < x.length then x else best) a) :: post :=
            ((List.cons.injEq _ _ _ _).mp hdec).2
          have haf : a.length < (t.foldl (fun best x => if best.length < x.length then x else best) a).length := by
            have := hpre b (by simp)
            rwa [hb] at this
          refine ⟨a :: x :: pre₂, post, ?_, ?_⟩
          · conv_lhs => rw [ht]
            simp
          intro c hc
          rcases List.mem_cons.mp hc with hc | hc
          · subst hc; exact haf
          rcases List.mem_cons.mp hc with hc | hc
          · subst hc; exact lt_of_le_of_lt hxa haf
          · exact hpre c (by simp [hc])

theorem pyMaxByLen_eq_none_iff (l : List (List Char)) :
    pyMaxByLen l = none ↔ l = [] := by
  cases l <;> simp [pyMaxByLen]

theorem pySplit_ne_nil (c : Char) (s : List Char) : pySplit c s ≠ [] := by
  induction s with
  | nil => simp [pySplit]
  | cons a t ih =>
    simp only [pySplit]
    by_cases hac : a = c
    · simp [hac]
    · simp only [if_neg hac]
      cases hr : pySplit c t with
      | nil => simp
      | cons s rest => simp

theorem pySplit_length_of_mem {c : Char} {s : List Char} (h : c ∈ s) :
    2 ≤ (pySplit c s).length := by
  induction s with
  | nil => simp at h
  | cons a t ih =>
    simp only [pySplit]
    by_cases hac : a = c
    · simp only [if_pos hac, List.length_cons]
      have := pySplit_ne_nil c t
      have : 1 ≤ (pySplit c t).length := by
        cases hr : pySplit c t with
        | nil => exact absurd hr this
        | cons _ _ => simp
      omega
    · have hct : c ∈ t := by
        rcases List.mem_cons.mp h with h | h
        · exact absurd h.symm hac
        · exact h
      simp only [if_neg hac]
      cases hr : pySplit c t with
      | nil => exact absurd hr (pySplit_ne_nil c t)
      | cons s rest =>
        have := ih hct
        rw [hr] at this
        simpa using this

theorem get?_one_of_two_le {α} {l : List α} (h : 2 ≤ l.length) :
    ∃ x, l.get? 1 = some x := by
  match l, h with
  | a :: b :: t, _ => exact ⟨b, rfl⟩

/-- The child-list walk is the in-order flattening of the children's
candidate pairs. -/
theorem walkList_eq_flatten (codecs : List Char → Option (Nat → Option Char))
    (cs : List MimePart) :
    walkList codecs cs =
      (((cs.map (walk codecs)).map Prod.fst).flatten,
       ((cs.map (walk codecs)).map Prod.snd).flatten) := by
  induction cs with
  | nil => rfl
  | cons p ps ih => simp [walkList, ih]

/-- The html side of the child-list walk is empty exactly when every child's
html side is empty. -/
theorem walkList_snd_nil_iff (codecs : List Char → Option (Nat → Option Char))
    (cs : List MimePart) :
    ((walkList codecs cs).2 = [] ↔ ∀ c ∈ cs, (walk codecs c).2 = []) := by
  induction cs with
  | nil => simp [walkList]
  | cons p ps ih =>
    simp only [walkList, List.append_eq_nil, List.mem_cons]
    constructor
    · rintro ⟨h1, h2⟩ c hc
      rcases hc with hc | hc
      · subst hc; exact h1
      · exact ih.mp h2 c hc
    · intro hall
      exact ⟨hall p (Or.inl rfl), ih.mpr (fun c hc => hall c (Or.inr hc))⟩

/-- `contribHtmlList` is false exactly when no child contributes. -/
theorem contribHtmlList_eq_false_iff
    (codecs : List Char → Option (Nat → Option Char)) (cs : List MimePart) :
    (contribHtmlList codecs cs = false ↔
      ∀ c ∈ cs, contribHtml codecs c = false) := by
  induction cs with
  | nil => simp [contribHtmlList]
  | cons p ps ih =>
    simp only [contribHtmlList, Bool.or_eq_false_iff, List.mem_cons]
    constructor
    · rintro ⟨h1, h2⟩ c hc
      rcases hc with hc | hc
      · subst hc; exact h1
      · exact ih.mp h2 c hc
    · intro hall
      exact ⟨hall p (Or.inl rfl), ih.mpr (fun c hc => hall c (Or.inr hc))⟩

/-- The walker's html candidate list is empty exactly when no leaf of the
tree contributes an html candidate. -/
theorem walk_snd_eq_nil_iff (codecs : List Char → Option (Nat → Option Char)) :
    ∀ m, ((walk codecs m).2 = [] ↔ contribHtml codecs m = false) := by
  intro m
  induction m using MimePart.recStrong with
  | hleaf hd p =>
    cases h1 : isAttachmentDisp hd with
    | true => simp [walk, contribHtml, h1]
    | false =>
      cases h2 : p.isEmpty with
      | true => simp [walk, contribHtml, h1, h2]
      | false =>
        cases h3 : codecs (effCharset hd) with
        | none => simp [walk, contribHtml, h1, h2, h3]
        | some tbl =>
          by_cases h4 : hd.contentType = "text/plain".data
          · have h5 : ¬ hd.contentType = "text/html".data := by
              rw [h4]; decide
            simp [walk, contribHtml, h1, h2, h3, h4, h5]
          · by_cases h5 : hd.contentType = "text/html".data
            · simp [walk, contribHtml, h1, h2, h3, h4, h5]
            · simp [walk, contribHtml, h1, h2, h3, h4, h5]
  | hmulti hd cs ih =>
    show ((walkList codecs cs).2 = [] ↔ contribHtmlList codecs cs = false)
    rw [walkList_snd_nil_iff, contribHtmlList_eq_false_iff]
    exact ⟨fun hall c hc => (ih c hc).mp (hall c hc),
           fun hall c hc => (ih c hc).mpr (hall c hc)⟩

/-- A multipart direct child never yields a put attempt: its
`get_payload(decode=True)` is falsy, so the loop skips it before any
name or key synthesis. -/
theorem attAttempt_multi (tokens : Nat → List Char) (bucket : List Char)
    (hd : PartHeaders) (cs : List MimePart) (n : Nat) :
    attAttempt tokens bucket (.multi hd cs) n = (none, n) := by
  rw [attAttempt]
  simp [payloadBytes, headersOf]

/-- The records the loop emits are exactly the prepared attempts filtered by
the put oracle; preparation (names, keys, token consumption) is oracle-free. -/
theorem processAtts_eq_filterMap (putOk : List Char → List Nat → List Char → Bool)
    (tokens : Nat → List Char) (bucket : List Char) :
    ∀ (ps : List MimePart) (n : Nat),
      processAtts putOk tokens bucket ps n =
        (attemptsList tokens bucket ps n).filterMap
          (fun a => if putOk a.key a.data a.content_type then some a.record else none) := by
  intro ps
  induction ps with
  | nil => intro n; rfl
  | cons p ps ih =>
    intro n
    rw [processAtts, attemptsList]
    cases hA : attAttempt tokens bucket p n with
    | mk o n' =>
      cases o with
      | none => simpa using ih n'
      | some a =>
        simp only [List.filterMap_cons]
        cases hput : putOk a.key a.data a.content_type with
        | true => simpa [hput] using ih n'
        | false => simpa [hput] using ih n'

/-- For a part whose name synthesis draws no fresh token, two runs with
different token supplies prepare the same attempt up to the storage key (and
hence the same record up to `public_url`), and leave the counter in the same
state. -/
theorem attAttempt_tokenFree (bucket : List Char) (p : MimePart)
    (hp : tokenFreeName p = true) (t1 t2 : Nat → List Char) (n : Nat) :
    (attAttempt t1 bucket p n).2 = (attAttempt t2 bucket p n).2 ∧
    ((attAttempt t1 bucket p n).1.map fun a => (a.data, a.content_type, intentOf a.record)) =
      ((attAttempt t2 bucket p n).1.map fun a => (a.data, a.content_type, intentOf a.record)) := by
  cases hq : qualifiesForAttachment (headersOf p) with
  | false => simp [attAttempt, hq]
  | true =>
    cases hd : (payloadBytes p).isEmpty with
    | true => simp [attAttempt, hq, hd]
    | false =>
      simp only [tokenFreeName, hq, hd, Bool.not_true, Bool.false_or] at hp
      cases hn : ((headersOf p).filename.getD []).isEmpty with
      | false =>
        have hstep : ∀ t : Nat → List Char,
            attAttempt t bucket p n =
              (some { key := t n ++ "/".data ++ (headersOf p).filename.getD [],
                      data := payloadBytes p,
                      content_type := (headersOf p).contentType,
                      record := { filename := (headersOf p).filename.getD [],
                                  public_url := "https://".data ++ bucket ++
                                    ".s3.amazonaws.com/".data ++
                                    (t n ++ "/".data ++ (headersOf p).filename.getD []),
                                  content_type := (headersOf p).contentType,
                                  inline := isInlineImage (headersOf p),
                                  content_id := if isInlineImage (headersOf p) then
                                    some (pyStripChars ['<', '>'] ((headersOf p).contentId.getD []))
                                    else none } }, n + 1) := by
          intro t
          simp [attAttempt, hq, hd, hn]
        rw [hstep t1, hstep t2]
        simp [intentOf]
      | true =>
        rw [hn, Bool.not_true, Bool.false_or, Bool.and_eq_true] at hp
        obtain ⟨hinl, hcid⟩ := hp
        rw [Bool.not_eq_true'] at hcid
        have hstep : ∀ t : Nat → List Char,
            attAttempt t bucket p n =
              (some { key := t n ++ "/".data ++
                        ("inline_".data ++
                          pyStripChars ['<', '>'] ((headersOf p).contentId.getD []) ++
                          ".".data ++ extOfContentType (headersOf p).contentType),
                      data := payloadBytes p,
                      content_type := (headersOf p).contentType,
                      record := { filename := "inline_".data ++
                                    pyStripChars ['<', '>'] ((headersOf p).contentId.getD []) ++
                                    ".".data ++ extOfContentType (headersOf p).contentType,
                                  public_url := "https://".data ++ bucket ++
                                    ".s3.amazonaws.com/".data ++
                                    (t n ++ "/".data ++
                                      ("inline_".data ++
                                        pyStripChars ['<', '>'] ((headersOf p).contentId.getD []) ++
                                        ".".data ++ extOfContentType (headersOf p).contentType)),
                                  content_type := (headersOf p).contentType,
                                  inline := true,
                                  content_id := some (pyStripChars ['<', '>']
                                    ((headersOf p).contentId.getD [])) } }, n + 1) := by
          intro t
          simp [attAttempt, hq, hd, hn, hinl, hcid]
        rw [hstep t1, hstep t2]
        simp [intentOf]

/-- Over a list of token-free-named parts, the emitted records agree up to
`public_url` between two token supplies, provided the put oracle does not
depend on the key. -/
theorem processAtts_tokenFree (putOk : List Char → List Nat → List Char → Bool)
    (bucket : List Char)
    (hput : ∀ k k' d c, putOk k d c = putOk k' d c) :
    ∀ (ps : List MimePart), (∀ p ∈ ps, tokenFreeName p = true) →
      ∀ (t1 t2 : Nat → List Char) (n : Nat),
        (processAtts putOk t1 bucket ps n).map intentOf =
          (processAtts putOk t2 bucket ps n).map intentOf := by
  intro ps
  induction ps with
  | nil => intro _ t1 t2 n; rfl
  | cons p ps ih =>
    intro hall t1 t2 n
    have hh := attAttempt_tokenFree bucket p (hall p (by simp)) t1 t2 n
    cases h1 : attAttempt t1 bucket p n with
    | mk o1 n1 =>
      cases h2 : attAttempt t2 bucket p n with
      | mk o2 n2 =>
        rw [h1, h2] at hh
        simp only at hh
        obtain ⟨hn12, hopt⟩ := hh
        subst hn12
        cases o1 with
        | none =>
          cases o2 with
          | none =>
            simp only [processAtts, h1, h2]
            exact ih (fun q hq => hall q (by simp [hq])) t1 t2 n1
          | some a2 => simp at hopt
        | some a1 =>
          cases o2 with
          | none => simp at hopt
          | some a2 =>
            simp only [Option.map_some', Option.some.injEq, Prod.mk.injEq] at hopt
            obtain ⟨hdata, hct, hint⟩ := hopt
            have hgate : putOk a1.key a1.data a1.content_type =
                putOk a2.key a2.data a2.content_type := by
              rw [hdata, hct]; exact hput a1.key a2.key a2.data a2.content_type
            simp only [processAtts, h1, h2]
            cases hg : putOk a2.key a2.data a2.content_type with
            | true =>
              rw [hgate, hg]
              simp only [List.map_append]
              simp [hint]
              rw [ih (fun q hq => hall q (by simp [hq])) t1 t2 n1]
            | false =>
              rw [hgate, hg]
              simp
              exact ih (fun q hq => hall q (by simp [hq])) t1 t2 n1

/-- Specification of `pyMaxByLen` on any candidate list: the winner is at
least as long as every candidate and is the first candidate of its length. -/
theorem pyMaxByLen_spec {cands : List (List Char)} {w : List Char}
    (hw : pyMaxByLen cands = some w) :
    (∀ c ∈ cands, c.length ≤ w.length) ∧
    ∃ pre post, cands = pre ++ w :: post ∧ ∀ c ∈ pre, c.length < w.length := by
  cases cands with
  | nil => simp [pyMaxByLen] at hw
  | cons a t =>
    simp only [pyMaxByLen, Option.some.injEq] at hw
    subst hw
    exact pyFold_spec t a

/-! ## Claims -/

/-- C1: for every raw message, among the same-tagged candidates collected by
the walker of `extract_email_body`, the winner selected by
`max(candidates, key=len)` (`pyMaxByLen`, applied by `extract_email_body` to
each tag's list) has decoded length at least every other candidate's length,
and on a tie the candidate encountered first in traversal order wins: the
winner occurs in the list after a (possibly empty) prefix of strictly
shorter candidates. -/
theorem c1_longest_candidate_wins
    (codecs : List Char → Option (Nat → Option Char)) (msg : MimePart) :
    (∀ w, pyMaxByLen (walk codecs msg).1 = some w →
      (∀ c ∈ (walk codecs msg).1, c.length ≤ w.length) ∧
      ∃ pre post, (walk codecs msg).1 = pre ++ w :: post ∧
        ∀ c ∈ pre, c.length < w.length) ∧
    (∀ w, pyMaxByLen (walk codecs msg).2 = some w →
      (∀ c ∈ (walk codecs msg).2, c.length ≤ w.length) ∧
      ∃ pre post, (walk codecs msg).2 = pre ++ w :: post ∧
        ∀ c ∈ pre, c.length < w.length) :=
  ⟨fun _ hw => pyMaxByLen_spec hw, fun _ hw => pyMaxByLen_spec hw⟩

/-- Witness for C1 on a message with two plain candidates of equal maximal
length (`ab` then `cd`): the winner is the first-encountered `ab`. -/
theorem c1_witness :
    pyMaxByLen (walk stdCodecs (.multi (phdr "multipart/alternative" none none none none)
        [.leaf (phdr "text/plain" none none none none) (asciiBytes "ab".data),
         .leaf (phdr "text/plain" none none none none) (asciiBytes "cd".data)])).1 =
      some "ab".data ∧
    (∀ c ∈ (walk stdCodecs (.multi (phdr "multipart/alternative" none none none none)
        [.leaf (phdr "text/plain" none none none none) (asciiBytes "ab".data),
         .leaf (phdr "text/plain" none none none none) (asciiBytes "cd".data)])).1,
      c.length ≤ "ab".data.length) := by
  refine ⟨by decide, ?_⟩
  exact (c1_longest_candidate_wins stdCodecs _).1 "ab".data (by decide) |>.1

/-- C3: for every raw message, if the walker found no plain candidate but
`extract_email_body` has an html winner, the returned body equals the html
winner's text; and if neither a plain nor an html candidate exists, the
result is the empty body with no html body — and no error, the extraction
being total. -/
theorem c3_fallback_and_empty
    (codecs : List Char → Option (Nat → Option Char)) (msg : MimePart) :
    ((walk codecs msg).1 = [] → ∀ w, (extract_email_body codecs msg).2 = some w →
      (extract_email_body codecs msg).1 = w) ∧
    ((walk codecs msg).1 = [] → (walk codecs msg).2 = [] →
      extract_email_body codecs msg = ([], none)) := by
  constructor
  · intro hp w hw
    simp only [extract_email_body, hp, pyMaxByLen, Option.getD_none] at hw ⊢
    rw [hw]
    cases hwe : w.isEmpty with
    | true =>
      have : w = [] := List.isEmpty_iff.mp hwe
      simp [this]
    | false => simp [hwe]
  · intro hp hh
    simp [extract_email_body, hp, hh, pyMaxByLen]

/-- Witness for C3: a message whose only part is a `text/html` leaf with body
`Hi` has no plain candidate, its html winner is `Hi`, and the extracted body
falls back to `Hi`. -/
theorem c3_witness :
    (walk stdCodecs hiHtmlLeaf).1 = [] ∧
    (extract_email_body stdCodecs hiHtmlLeaf).2 = some "Hi".data ∧
    (extract_email_body stdCodecs hiHtmlLeaf).1 = "Hi".data :=
  ⟨by decide, by decide,
   (c3_fallback_and_empty stdCodecs hiHtmlLeaf).1 (by decide) "Hi".data (by decide)⟩

/-- C10 (amended): a non-attachment `text/plain` or `text/html` leaf with a
*non-empty* decoded payload and a charset known to the codec registry always
contributes exactly one candidate — decoding with `errors="replace"` never
raises — whose text is the decoded payload stripped of leading and trailing
whitespace before any length comparison; bytes invalid for the codec decode
to U+FFFD.  A text part is dropped when its decoded payload is falsy (the
`if not payload` skip at lines 122-123, with no exception involved), when its
charset is unknown, or on another exception while reading it: an empty
payload yields no candidate whatever the headers. -/
theorem c10_replace_decoding_never_drops
    (codecs : List Char → Option (Nat → Option Char)) (h : PartHeaders)
    (payload : List Nat) (tbl : Nat → Option Char)
    (hdisp : isAttachmentDisp h = false)
    (hpl : payload ≠ [])
    (hcodec : codecs (effCharset h) = some tbl) :
    (h.contentType = "text/plain".data →
      walk codecs (.leaf h payload) = ([pyStrip (decodeReplace tbl payload)], [])) ∧
    (h.contentType = "text/html".data →
      walk codecs (.leaf h payload) = ([], [pyStrip (decodeReplace tbl payload)])) ∧
    (∀ i b, payload.get? i = some b → tbl b = none →
      (decodeReplace tbl payload).get? i = some replacementChar) ∧
    (∀ hd : PartHeaders, walk codecs (.leaf hd []) = ([], [])) := by
  have hpe : payload.isEmpty = false := by
    rw [Bool.eq_false_iff]
    intro hx
    exact hpl (List.isEmpty_iff.mp hx)
  refine ⟨?_, ?_, ?_, ?_⟩
  · intro hct
    simp [walk, hdisp, hpe, hcodec, hct]
  · intro hct
    rw [walk]
    rw [hdisp]
    simp only [Bool.false_eq_true, if_false, hpe, hcodec]
    rw [if_neg (by rw [hct]; decide), if_pos hct]
  · intro i b hib htbl
    rw [List.get?_eq_getElem?] at hib ⊢
    simp [decodeReplace, List.getElem?_map, hib, htbl]
  · intro hd
    cases h1 : isAttachmentDisp hd <;> simp [walk, h1]

/-- C10 counterexample: a `text/plain` leaf with declared charset `utf-8`
(known to the registry), a disposition that is not an attachment, and an
empty payload is dropped from the candidate set — no exception, known
charset, yet no candidate — refuting the claim that a known-charset text
part always contributes and is dropped only on an unknown charset or
another exception. -/
theorem c10_counterexample :
    isAttachmentDisp (phdr "text/plain" none none none (some "utf-8")) = false ∧
    stdCodecs (effCharset (phdr "text/plain" none none none (some "utf-8"))) =
      some asciiTable ∧
    walk stdCodecs (.leaf (phdr "text/plain" none none none (some "utf-8")) []) =
      ([], []) := by
  refine ⟨by decide, rfl, by decide⟩

/-- Witness for the amended C10: a `text/plain` leaf declaring `utf-8` whose
payload starts with the invalid byte 200 still yields one candidate, the
invalid byte decodes to U+FFFD, and an empty-payload leaf yields none. -/
theorem c10_witness :
    isAttachmentDisp (phdr "text/plain" none none none (some "utf-8")) = false ∧
    ([200, 72] : List Nat) ≠ [] ∧
    stdCodecs (effCharset (phdr "text/plain" none none none (some "utf-8"))) =
      some asciiTable ∧
    walk stdCodecs invalidByteLeaf = ([pyStrip (decodeReplace asciiTable [200, 72])], []) ∧
    (decodeReplace asciiTable [200, 72]).get? 0 = some replacementChar ∧
    walk stdCodecs (.leaf (phdr "text/html" none none none none) []) = ([], []) := by
  refine ⟨by decide, by decide, rfl, ?_, ?_, ?_⟩
  · exact (c10_replace_decoding_never_drops stdCodecs
      (phdr "text/plain" none none none (some "utf-8")) [200, 72] asciiTable
      (by decide) (by decide) rfl).1 rfl
  · exact (c10_replace_decoding_never_drops stdCodecs
      (phdr "text/plain" none none none (some "utf-8")) [200, 72] asciiTable
      (by decide) (by decide) rfl).2.2.1 0 200 rfl (by decide)
  · exact (c10_replace_decoding_never_drops stdCodecs
      (phdr "text/plain" none none none (some "utf-8")) [200, 72] asciiTable
      (by decide) (by decide) rfl).2.2.2 (phdr "text/html" none none none none)

/-- C2 counterexample: in `cidMsg` the only inline attachment has content id
`img`, so the token `cid:imgX` in the html body matches no attachment's
content id; the claim says it must be left unchanged, but the sequential
`str.replace` pass for `img` rewrites its prefix, so `cid:imgX` is gone from
the output. -/
theorem c2_counterexample :
    (normalizeEmail stdCodecs putAllOk tokT "b".data cidMsg).attachments =
      [{ filename := "a.png".data,
         public_url := "https://b.s3.amazonaws.com/t/a.png".data,
         content_type := "image/png".data, inline := true,
         content_id := some "img".data }] ∧
    occursB "cid:imgX".data "<p>cid:imgX</p>".data = true ∧
    (normalizeEmail stdCodecs putAllOk tokT "b".data cidMsg).html_body =
      some "<p>https://b.s3.amazonaws.com/t/a.pngX</p>".data ∧
    occursB "cid:imgX".data "<p>https://b.s3.amazonaws.com/t/a.pngX</p>".data = false := by
  refine ⟨by decide, by decide, by decide, by decide⟩

/-- C2 (amended): the rewriting (`rewriteCids`) is a sequential textual
substitution, one `str.replace` pass per inline record with truthy content
id.  (i) An html body in which no active record's pattern `cid:{content_id}`
occurs as a substring — in particular one whose every dangling `cid:Y` token
has no record content id as a prefix — is returned completely unchanged;
(ii) when an active record's pattern does occur, the record's pass replaces
it, so the record's `public_url` occurs in that pass's output.  A dangling
`cid:Y` token is rewritten exactly when it is reachable by such a pass, e.g.
when some record's content id is a proper prefix of `Y`. -/
theorem c2_amended :
    (∀ atts html, (∀ a ∈ atts, cidActive a = true →
        occursB ("cid:".data ++ a.content_id.getD []) html = false) →
      rewriteCids atts html = html) ∧
    (∀ (a : AttachmentRecord) (html : List Char), cidActive a = true →
      occursB ("cid:".data ++ a.content_id.getD []) html = true →
      occursB a.public_url (rewriteCids [a] html) = true) := by
  constructor
  · intro atts
    induction atts with
    | nil => intro html _; rfl
    | cons a atts ih =>
      intro html hall
      simp only [rewriteCids, List.foldl_cons]
      cases hca : cidActive a with
      | false =>
        simp only [hca, Bool.false_eq_true, if_false]
        exact ih html (fun a' ha' => hall a' (List.mem_cons_of_mem a ha'))
      | true =>
        have hocc := hall a (List.mem_cons_self a atts) hca
        simp only [hca, if_true]
        rw [replaceList_of_not_occurs hocc]
        exact ih html (fun a' ha' => hall a' (List.mem_cons_of_mem a ha'))
  · intro a html hca hocc
    have hp : ("cid:".data ++ a.content_id.getD []) ≠ [] := by simp
    simp only [rewriteCids, List.foldl_cons, List.foldl_nil, hca, if_true]
    exact occursB_replacement hp hocc

/-- Witness for the amended C2: a body whose only `cid:` token shares no
prefix with the record's content id is unchanged, and a body containing the
record's own token ends up containing the public url. -/
theorem c2_witness :
    rewriteCids
        [{ filename := "a.png".data, public_url := "u".data,
           content_type := "image/png".data, inline := true,
           content_id := some "img".data }] "<p>cid:other</p>".data =
      "<p>cid:other</p>".data ∧
    occursB "u".data
      (rewriteCids
        [{ filename := "a.png".data, public_url := "u".data,
           content_type := "image/png".data, inline := true,
           content_id := some "img".data }] "<p>cid:img</p>".data) = true := by
  constructor
  · exact c2_amended.1 _ _ (by decide)
  · exact c2_amended.2
      { filename := "a.png".data, public_url := "u".data,
        content_type := "image/png".data, inline := true,
        content_id := some "img".data } "<p>cid:img</p>".data (by decide) (by decide)

/-- C4 counterexample: a message whose single leaf is `text/html` with
`Content-Disposition: attachment` has a text/html leaf in its tree, yet the
final html body is `None`, refuting the claimed equivalence. -/
theorem c4_counterexample :
    specHasHtmlLeaf attachedHtmlLeaf = true ∧
    (normalizeEmail stdCodecs putAllOk tokT "b".data attachedHtmlLeaf).html_body = none := by
  exact ⟨by decide, by decide⟩

/-- C4 (amended): the final html body is `None` if and only if no leaf of the
MIME tree contributes an html candidate, i.e. no leaf has content type
`text/html` together with a disposition not containing `attachment`, a
non-empty payload, and a charset known to the decoder. -/
theorem c4_amended (codecs : List Char → Option (Nat → Option Char))
    (putOk : List Char → List Nat → List Char → Bool)
    (tokens : Nat → List Char) (bucket : List Char) (msg : MimePart) :
    ((normalizeEmail codecs putOk tokens bucket msg).html_body = none ↔
      contribHtml codecs msg = false) := by
  have hmain : ((extract_email_body codecs msg).2 = none ↔
      contribHtml codecs msg = false) := by
    simp only [extract_email_body]
    rw [pyMaxByLen_eq_none_iff]
    exact walk_snd_eq_nil_iff codecs msg
  cases msg with
  | leaf hd p =>
    simpa only [normalizeEmail] using hmain
  | multi hd cs =>
    simp only [normalizeEmail]
    cases he : (extract_email_body codecs (.multi hd cs)).2 with
    | none =>
      rw [he] at hmain
      simpa using hmain
    | some hb =>
      rw [he] at hmain
      have hne : ¬ contribHtml codecs (.multi hd cs) = false := by
        intro hx
        exact Option.some_ne_none hb (hmain.mpr hx)
      constructor
      · intro hx
        by_cases hbe : hb.isEmpty <;> simp [hbe] at hx
      · intro hx
        exact absurd hx hne

/-- C5 counterexample: (i) when the `Received` for-clause matches an address
without an `'@'` — which the pattern's `[\w@\.-]+` address class allows —
`kv_key = match.group(3).split('@')[1]` raises `IndexError`, so the
derivation does raise; (ii) when no address is parseable from `To`, the
domain field degrades to the (non-empty) `kv_key` fallback, not to the empty
string. -/
theorem c5_counterexample :
    deriveRouting routingNoAt = .error () ∧
    deriveRouting routingBadTo = .ok ("foo".data, "foo".data, []) ∧
    "foo".data ≠ ([] : List Char) := by
  refine ⟨rfl, rfl, by decide⟩

/-- C5 (amended): provided every matched `Received` for-clause address
contains an `'@'`, the routing derivation never raises; it prefers the
matched address, falls back to the first `To` address, and when neither
yields a truthy address containing `'@'` it degrades without raising to an
empty `local_part` and a `domain` equal to the `To`-derived `kv_key` fallback
(`recipient.split('@')[-1].strip('>')` — possibly non-empty, e.g. `foo`, and
possibly empty even for a non-empty `To` such as `>`); in particular an empty
`To` header gives empty routing key fields. -/
theorem c5_amended (m : RoutingHeaders)
    (hat : ∀ a, m.receivedFor = some a → '@' ∈ a) :
    (∃ k d l, deriveRouting m = .ok (k, d, l)) ∧
    (m.receivedFor = none → m.recipient = [] →
      deriveRouting m = .ok ([], [], [])) ∧
    (∀ k, m.receivedFor = none → kvKeyE m = .ok k →
      (∀ pr, (if m.recipient.isEmpty then [] else m.toAddresses).get? 0 = some pr →
        pr.2 = [] ∨ '@' ∉ pr.2) →
      deriveRouting m = .ok (k, (if k.isEmpty then [] else k), [])) := by
  refine ⟨?_, ?_, ?_⟩
  case refine_3 =>
    intro k hrf hk haddr
    simp only [deriveRouting, hk, domainLocalParts, hrf, domainLocalFallback]
    cases hg : (if m.recipient.isEmpty then [] else m.toAddresses).get? 0 with
    | none => simp [hg]
    | some pr =>
      rcases haddr pr hg with h | h
      · simp [hg, h]
      · have hc : pr.2.contains '@' = false := by
          rw [Bool.eq_false_iff]
          intro hx
          exact h (by simpa using hx)
        simp [hg, hc]
        intro h1 h2
        exact absurd h2 h
  case refine_1 =>
    cases hrf : m.receivedFor with
    | some a =>
      have hmem : '@' ∈ a := hat a hrf
      obtain ⟨d, hd⟩ := get?_one_of_two_le (pySplit_length_of_mem hmem)
      rw [List.get?_eq_getElem?] at hd
      refine ⟨d, (domainLocalParts m d).1, (domainLocalParts m d).2, ?_⟩
      simp [deriveRouting, kvKeyE, hrf, hd]
    | none =>
      cases hrec : m.recipient.isEmpty with
      | true =>
        refine ⟨[], (domainLocalParts m []).1, (domainLocalParts m []).2, ?_⟩
        simp [deriveRouting, kvKeyE, hrf, hrec]
      | false =>
        refine ⟨pyStripChars ['>'] ((pySplit '@' m.recipient).getLastD []),
          (domainLocalParts m (pyStripChars ['>'] ((pySplit '@' m.recipient).getLastD []))).1,
          (domainLocalParts m (pyStripChars ['>'] ((pySplit '@' m.recipient).getLastD []))).2, ?_⟩
        simp [deriveRouting, kvKeyE, hrf, hrec]
  case refine_2 =>
    intro hrf hrec
    simp [deriveRouting, kvKeyE, domainLocalParts, domainLocalFallback, hrf, hrec]

/-- Witness for the amended C5: a well-formed `Received` for-clause address
derives successfully with its domain and local part authoritative, and a
non-empty `To` header of `>` (no parseable address) degrades without raising
to the empty `kv_key` fallback in both routing key fields. -/
theorem c5_witness :
    (∃ k d l, deriveRouting routingGood = .ok (k, d, l)) ∧
    deriveRouting routingGood =
      .ok ("mail.example.com".data, "mail.example.com".data, "alice".data) ∧
    deriveRouting routingGtTo = .ok ([], [], []) := by
  refine ⟨?_, rfl, ?_⟩
  · exact (c5_amended routingGood (by
      intro a ha
      rw [show routingGood.receivedFor = some "alice@mail.example.com".data from rfl] at ha
      injection ha with ha
      rw [← ha]
      decide)).1
  · exact (c5_amended routingGtTo (by
      intro a ha
      rw [show routingGtTo.receivedFor = none from rfl] at ha
      exact Option.noConfusion ha)).2.2 [] rfl rfl (by
      intro pr hpr
      rw [show (if routingGtTo.recipient.isEmpty then []
        else routingGtTo.toAddresses).get? 0 = (none : Option (List Char × List Char))
        from rfl] at hpr
      exact Option.noConfusion hpr)

/-- C6 counterexample: `twoAttMsg` has two attachment-intent parts and an
html body referencing the inline one.  When the put for the inline attachment
raises, the output has exactly one record as claimed, but `html_body` is NOT
as it would be with no failure: the `cid:i1` reference stays unrewritten,
whereas the no-failure run rewrites it to the public url. -/
theorem c6_counterexample :
    (normalizeEmail stdCodecs putFailPng tokT "b".data twoAttMsg).attachments.length = 1 ∧
    (normalizeEmail stdCodecs putAllOk tokT "b".data twoAttMsg).attachments.length = 2 ∧
    (normalizeEmail stdCodecs putFailPng tokT "b".data twoAttMsg).html_body =
      some "x cid:i1 y".data ∧
    (normalizeEmail stdCodecs putAllOk tokT "b".data twoAttMsg).html_body =
      some "x https://b.s3.amazonaws.com/t/p.png y".data ∧
    (normalizeEmail stdCodecs putFailPng tokT "b".data twoAttMsg).html_body ≠
      (normalizeEmail stdCodecs putAllOk tokT "b".data twoAttMsg).html_body := by
  refine ⟨by decide, by decide, by decide, by decide, by decide⟩

/-- C6 (amended): for a message whose attachment loop prepares exactly two
put attempts, if the put raises for exactly one of them then the output
contains exactly the record of the attempt whose put succeeded and the body
is exactly as with no failure; `html_body` is also exactly as with no failure
provided the failed attachment does not take part in cid rewriting (not
inline, or content id falsy) — otherwise its `cid:` reference stays
unrewritten, as the counterexample shows. -/
theorem c6_amended
    (codecs : List Char → Option (Nat → Option Char))
    (tokens : Nat → List Char) (bucket : List Char)
    (hd : PartHeaders) (cs : List MimePart)
    (P Q : List Char → List Nat → List Char → Bool)
    (a1 a2 : PutAttempt)
    (hatt : attemptsList tokens bucket cs 0 = [a1, a2])
    (hP : ∀ k d c, P k d c = true) :
    (normalizeEmail codecs P tokens bucket (.multi hd cs)).attachments =
      [a1.record, a2.record] ∧
    (Q a1.key a1.data a1.content_type = true →
     Q a2.key a2.data a2.content_type = false →
     cidActive a2.record = false →
      (normalizeEmail codecs Q tokens bucket (.multi hd cs)).attachments = [a1.record] ∧
      (normalizeEmail codecs Q tokens bucket (.multi hd cs)).body =
        (normalizeEmail codecs P tokens bucket (.multi hd cs)).body ∧
      (normalizeEmail codecs Q tokens bucket (.multi hd cs)).html_body =
        (normalizeEmail codecs P tokens bucket (.multi hd cs)).html_body) ∧
    (Q a1.key a1.data a1.content_type = false →
     Q a2.key a2.data a2.content_type = true →
     cidActive a1.record = false →
      (normalizeEmail codecs Q tokens bucket (.multi hd cs)).attachments = [a2.record] ∧
      (normalizeEmail codecs Q tokens bucket (.multi hd cs)).body =
        (normalizeEmail codecs P tokens bucket (.multi hd cs)).body ∧
      (normalizeEmail codecs Q tokens bucket (.multi hd cs)).html_body =
        (normalizeEmail codecs P tokens bucket (.multi hd cs)).html_body) := by
  have hPatts : processAtts P tokens bucket cs 0 = [a1.record, a2.record] := by
    rw [processAtts_eq_filterMap, hatt]
    simp [List.filterMap_cons, hP]
  refine ⟨by simp only [normalizeEmail]; exact hPatts, ?_, ?_⟩
  · intro hq1 hq2 hca2
    have hQatts : processAtts Q tokens bucket cs 0 = [a1.record] := by
      rw [processAtts_eq_filterMap, hatt]
      simp [List.filterMap_cons, hq1, hq2]
    refine ⟨by simp only [normalizeEmail]; exact hQatts, rfl, ?_⟩
    simp only [normalizeEmail, hQatts, hPatts]
    cases he : (extract_email_body codecs (.multi hd cs)).2 with
    | none => rfl
    | some hb =>
      cases hbe : hb.isEmpty with
      | true => simp [hbe]
      | false =>
        simp only [hbe, Bool.false_eq_true, if_false, Option.some.injEq]
        simp [rewriteCids, hca2]
  · intro hq1 hq2 hca1
    have hQatts : processAtts Q tokens bucket cs 0 = [a2.record] := by
      rw [processAtts_eq_filterMap, hatt]
      simp [List.filterMap_cons, hq1, hq2]
    refine ⟨by simp only [normalizeEmail]; exact hQatts, rfl, ?_⟩
    simp only [normalizeEmail, hQatts, hPatts]
    cases he : (extract_email_body codecs (.multi hd cs)).2 with
    | none => rfl
    | some hb =>
      cases hbe : hb.isEmpty with
      | true => simp [hbe]
      | false =>
        simp only [hbe, Bool.false_eq_true, if_false, Option.some.injEq]
        simp [rewriteCids, hca1]

/-- Witness for the amended C6: for the two-attachment message, failing the
pdf's put yields exactly the png record, with `html_body` exactly as in the
no-failure run. -/
theorem c6_witness :
    attemptsList tokT "b".data [pngInlineLeaf, pdfLeaf] 0 = [c6A1, c6A2] ∧
    putFailPdf c6A1.key c6A1.data c6A1.content_type = true ∧
    putFailPdf c6A2.key c6A2.data c6A2.content_type = false ∧
    cidActive c6A2.record = false ∧
    (normalizeEmail stdCodecs putFailPdf tokT "b".data twoAttOnlyMsg).attachments =
      [c6A1.record] ∧
    (normalizeEmail stdCodecs putFailPdf tokT "b".data twoAttOnlyMsg).html_body =
      (normalizeEmail stdCodecs putAllOk tokT "b".data twoAttOnlyMsg).html_body := by
  refine ⟨by decide, by decide, by decide, by decide, ?_, ?_⟩
  · exact ((c6_amended stdCodecs tokT "b".data
      (phdr "multipart/mixed" none none none none) [pngInlineLeaf, pdfLeaf]
      putAllOk putFailPdf c6A1 c6A2 (by decide) (fun _ _ _ => rfl)).2.1
      (by decide) (by decide) (by decide)).1
  · exact ((c6_amended stdCodecs tokT "b".data
      (phdr "multipart/mixed" none none none none) [pngInlineLeaf, pdfLeaf]
      putAllOk putFailPdf c6A1 c6A2 (by decide) (fun _ _ _ => rfl)).2.1
      (by decide) (by decide) (by decide)).2.2

/-- C7 counterexample: an attachment leaf that qualifies for processing is
hidden inside an inner multipart child; the attachment scan, which iterates
only the root's direct children (`iter_parts()` is not recursive), emits no
record for it, while the same leaf as a direct child is persisted. -/
theorem c7_counterexample :
    qualifiesForAttachment (headersOf pdfLeaf) = true ∧
    (normalizeEmail stdCodecs putAllOk tokT "b".data nestedAttMsg).attachments = [] ∧
    (normalizeEmail stdCodecs putAllOk tokT "b".data
        (.multi (phdr "multipart/mixed" none none none none) [pdfLeaf])).attachments.length
      = 1 := by
  refine ⟨by decide, by decide, by decide⟩

/-- C7 (amended): the body-text walker does recurse into every child of every
multipart part in declaration order at every depth, never treating a
multipart parent as a leaf; the attachment scan, by contrast, examines only
the root's direct children — a multipart child yields no put attempt (its
decoded payload is falsy), so an attachment leaf nested deeper is never
emitted as a record. -/
theorem c7_amended (codecs : List Char → Option (Nat → Option Char))
    (tokens : Nat → List Char) (bucket : List Char)
    (hd : PartHeaders) (cs : List MimePart) (n : Nat) :
    walk codecs (.multi hd cs) =
      (((cs.map (walk codecs)).map Prod.fst).flatten,
       ((cs.map (walk codecs)).map Prod.snd).flatten) ∧
    attAttempt tokens bucket (.multi hd cs) n = (none, n) :=
  ⟨walkList_eq_flatten codecs cs, attAttempt_multi tokens bucket hd cs n⟩

/-- C8 counterexample: a single-part (non-multipart) message that is a
qualifying attachment leaf — `application/pdf`, disposition `attachment`,
filename, non-empty payload — yields no AttachmentRecord at all, because the
attachment loop runs only under `msg.is_multipart()`. -/
theorem c8_counterexample :
    qualifiesForAttachment (headersOf pdfLeaf) = true ∧
    (normalizeEmail stdCodecs putAllOk tokT "b".data pdfLeaf).attachments = [] ∧
    (normalizeEmail stdCodecs putAllOk tokT "b".data pdfLeaf).body = [] := by
  refine ⟨by decide, by decide, by decide⟩

/-- C8 (amended): a non-multipart root is handed to the body walker as a
single leaf and classified with its actual content disposition (not an
assumed `none`); the attachment scan is skipped entirely, so a non-multipart
message never yields an AttachmentRecord.  The plain-text scenario holds: a
single-part `text/plain` message with payload `Hello` yields body `Hello`,
no html body and no attachments. -/
theorem c8_amended :
    (∀ (codecs : List Char → Option (Nat → Option Char))
        (putOk : List Char → List Nat → List Char → Bool)
        (tokens : Nat → List Char) (bucket : List Char)
        (hd : PartHeaders) (payload : List Nat),
      (normalizeEmail codecs putOk tokens bucket (.leaf hd payload)).attachments = []) ∧
    (∀ (putOk : List Char → List Nat → List Char → Bool)
        (tokens : Nat → List Char) (bucket : List Char),
      normalizeEmail stdCodecs putOk tokens bucket helloLeaf =
        ⟨"Hello".data, none, []⟩) := by
  constructor
  · intro codecs putOk tokens bucket hd payload
    rfl
  · intro putOk tokens bucket
    rfl

/-- C9 counterexample: the attachment scan of a qualifying part with no
filename and no content id synthesizes `attachment_{uuid4().hex}.bin`, so two
runs drawing different fresh tokens produce different attachment intents —
different already in the `filename` field, before any storage key. -/
theorem c9_counterexample :
    (processAtts putAllOk tokA "b".data [noNameLeaf] 0).map intentOf ≠
      (processAtts putAllOk tokB "b".data [noNameLeaf] 0).map intentOf := by
  decide

/-- C9 (amended): the text-candidate walk is a pure function of the message,
so it is identical across runs; the attachment intents are identical across
runs up to the freshly drawn tokens: when every direct child either is
skipped, or has a truthy filename, or is an inline image with a truthy
content id — so that no name is synthesized from a fresh token — the records
of two runs agree on every field except the token-bearing `public_url`,
provided the put outcome does not depend on the storage key. -/
theorem c9_amended (putOk : List Char → List Nat → List Char → Bool)
    (bucket : List Char) (t1 t2 : Nat → List Char)
    (cs : List MimePart) (n : Nat)
    (hput : ∀ k k' d c, putOk k d c = putOk k' d c)
    (hnames : ∀ p ∈ cs, tokenFreeName p = true) :
    (processAtts putOk t1 bucket cs n).map intentOf =
      (processAtts putOk t2 bucket cs n).map intentOf :=
  processAtts_tokenFree putOk bucket hput cs hnames t1 t2 n

/-- Witness for the amended C9: with a filename-bearing inline attachment,
two runs with different token draws produce the same intent. -/
theorem c9_witness :
    (processAtts putAllOk tokA "b".data [pngInlineLeaf] 0).map intentOf =
      (processAtts putAllOk tokB "b".data [pngInlineLeaf] 0).map intentOf :=
  c9_amended putAllOk "b".data tokA tokB [pngInlineLeaf] 0
    (fun _ _ _ _ => rfl) (by decide)
